import Mathlib

/-!
Verification of the audio "arousal" regressor defined in
`Audio-Arousal Model/audio_model.py`.

Tensors are shallowly embedded as a runtime shape (a list of dimension
sizes) together with a total data function from index lists to rationals.
The transcendental primitives the framework supplies (exp, sqrt, sigmoid,
tanh) are abstracted into a structure `Act`; every theorem below is stated
for an arbitrary `Act`, with mild positivity hypotheses where a claim
needs them.  Dropout randomness is made explicit: each dropout site
receives a Boolean keep-mask over indices, and each module forward takes a
`training` flag, mirroring `nn.Module.train()` / `.eval()` for registered
submodules.  The one dropout that is NOT registered — the `nn.Dropout`
constructed afresh inside the `Self_Attention` function — is embedded with
its training flag hard-coded to `true`, which is exactly the PyTorch
behaviour (a freshly constructed module is in training mode and
`model.eval()` never reaches it).
-/

/-- Abstract numeric primitives supplied by the framework. -/
structure Act where
  exp : ℚ → ℚ
  sqrt : ℚ → ℚ
  sigmoid : ℚ → ℚ
  tanh : ℚ → ℚ

/-- A tensor: a runtime shape and a total data function on index lists. -/
structure Tensor where
  shape : List ℕ
  data : List ℕ → ℚ

/-- A Boolean tensor (as produced by `audio != 0` / `torch.all`). -/
structure BTensor where
  shape : List ℕ
  data : List ℕ → Bool

/-- Insert an element at a position in a list (like `torch.unsqueeze`). -/
def insAt : ℕ → α → List α → List α
  | 0, a, l => a :: l
  | _ + 1, a, [] => [a]
  | n + 1, a, x :: xs => x :: insAt n a xs

/-- Remove the element at a position in a list. -/
def eraAt : ℕ → List α → List α
  | _, [] => []
  | 0, _ :: xs => xs
  | n + 1, x :: xs => x :: eraAt n xs

/-- Swap the entries at two positions of a list. -/
def swapAt2 (i j : ℕ) (l : List ℕ) : List ℕ :=
  (l.set i (l.getD j 0)).set j (l.getD i 0)

/-- Row-major linear index of a multi-index w.r.t. a shape. -/
def linIdx : List ℕ → List ℕ → ℕ
  | _ :: ss, i :: is => i * ss.prod + linIdx ss is
  | _, _ => 0

/-- Row-major multi-index of a linear index w.r.t. a shape. -/
def delinIdx : List ℕ → ℕ → List ℕ
  | [], _ => []
  | _ :: ss, n => n / ss.prod :: delinIdx ss (n % ss.prod)

/-- Last entry of an index or shape list. -/
def lastD (l : List ℕ) : ℕ := l.getD (l.length - 1) 0

/-- The size of the last dimension of a tensor. -/
def lastDim (x : Tensor) : ℕ := lastD x.shape

/-- Resolve a possibly-negative dimension index against a rank. -/
def resolveDim (rank : ℕ) (z : ℤ) : ℕ :=
  if z < 0 then rank - (-z).toNat else z.toNat

/-- `torch.transpose x d1 d2` (dims may be negative, counted from the end). -/
def transposeT (d1 d2 : ℤ) (x : Tensor) : Tensor :=
  let i := resolveDim x.shape.length d1
  let j := resolveDim x.shape.length d2
  ⟨swapAt2 i j x.shape, fun idx => x.data (swapAt2 i j idx)⟩

/-- `x.reshape(spec)` / `x.view(spec)`: `-1` entries are inferred from the
element count, data is re-read in row-major order. -/
def reshapeT (x : Tensor) (spec : List ℤ) : Tensor :=
  let numel := x.shape.prod
  let known := spec.foldl (fun a d => if d = -1 then a else a * d.toNat) 1
  let sh := spec.map (fun d => if d = -1 then numel / known else d.toNat)
  ⟨sh, fun idx => x.data (delinIdx x.shape (linIdx sh idx))⟩

/-- Elementwise ReLU. -/
def reluT (x : Tensor) : Tensor := ⟨x.shape, fun idx => max (x.data idx) 0⟩

/-- Elementwise addition (shapes assumed equal at call sites). -/
def addT (x y : Tensor) : Tensor := ⟨x.shape, fun idx => x.data idx + y.data idx⟩

/-- Division of every entry by a scalar. -/
def divScalarT (x : Tensor) (c : ℚ) : Tensor := ⟨x.shape, fun idx => x.data idx / c⟩

/-- `nn.Dropout(p)` applied with an explicit keep-mask: in training mode a
kept entry is scaled by `1/(1-p)` and a dropped entry becomes `0`; in eval
mode the input passes through unchanged. -/
def dropoutT (p : ℚ) (training : Bool) (keep : List ℕ → Bool) (x : Tensor) : Tensor :=
  if training then ⟨x.shape, fun idx => if keep idx then x.data idx / (1 - p) else 0⟩ else x

/-- The all-zeros tensor of a given shape (`torch.zeros`). -/
def zerosT (s : List ℕ) : Tensor := ⟨s, fun _ => 0⟩

/-- `F.softmax` along the last dimension. -/
def softmaxT (A : Act) (x : Tensor) : Tensor :=
  let n := lastDim x
  ⟨x.shape, fun idx =>
    A.exp (x.data idx) / ∑ k in Finset.range n, A.exp (x.data (idx.dropLast ++ [k]))⟩

/-- Read a Boolean tensor at an index of a (possibly larger) tensor,
with right-aligned broadcasting over size-1 dimensions. -/
def broadcastGetB (m : BTensor) (idx : List ℕ) : Bool :=
  m.data (List.zipWith (fun s i => if s = 1 then 0 else i) m.shape
    (idx.drop (idx.length - m.shape.length)))

/-- `torch.masked_fill(x, m, v)`: entries where the (broadcast) mask is
true are replaced by `v`. -/
def maskedFillT (x : Tensor) (m : BTensor) (v : ℚ) : Tensor :=
  ⟨x.shape, fun idx => if broadcastGetB m idx then v else x.data idx⟩

/-- Elementwise Boolean negation (`~mask`). -/
def notB (m : BTensor) : BTensor := ⟨m.shape, fun idx => ! m.data idx⟩

/-- `x != 0` as a Boolean tensor. -/
def neZeroB (x : Tensor) : BTensor := ⟨x.shape, fun idx => decide (x.data idx ≠ 0)⟩

/-- `torch.all(m, axis=d)`: conjunction over dimension `d`, which is removed. -/
def allAxisB (d : ℕ) (m : BTensor) : BTensor :=
  let n := m.shape.getD d 0
  ⟨eraAt d m.shape, fun idx => (List.range n).all (fun k => m.data (insAt d k idx))⟩

/-- Resolve a possibly-negative insertion position for `unsqueeze`. -/
def resolveIns (rank : ℕ) (z : ℤ) : ℕ :=
  if z < 0 then rank + 1 - (-z).toNat else z.toNat

/-- `m.unsqueeze(d)` for a Boolean tensor. -/
def unsqueezeB (d : ℤ) (m : BTensor) : BTensor :=
  let p := resolveIns m.shape.length d
  ⟨insAt p 1 m.shape, fun idx => m.data (eraAt p idx)⟩

/-- `nn.Linear(inF, outF)` weights (weight is `[outF, inF]`). -/
structure LinearM where
  inF : ℕ
  outF : ℕ
  w : ℕ → ℕ → ℚ
  b : Option (ℕ → ℚ)

/-- `nn.Linear` forward on the last dimension: `y_o = Σ_i x_i W[o,i] + b_o`. -/
def LinearM.forward (m : LinearM) (x : Tensor) : Tensor :=
  ⟨x.shape.dropLast ++ [m.outF], fun idx =>
    (∑ i in Finset.range m.inF, x.data (idx.dropLast ++ [i]) * m.w (lastD idx) i) +
      (match m.b with | some f => f (lastD idx) | none => 0)⟩

/-- Batched matrix product over the last two dimensions
(`torch.matmul` with equal leading batch dimensions). -/
def matmulT (x y : Tensor) : Tensor :=
  let m := lastDim x
  ⟨x.shape.dropLast ++ [lastDim y], fun idx =>
    ∑ k in Finset.range m,
      x.data (idx.dropLast ++ [k]) * y.data (idx.dropLast.dropLast ++ [k, lastD idx])⟩

/-- `nn.LayerNorm` over the last dimension with learnable `γ, β` and the
PyTorch default `eps = 1e-5` (biased variance). -/
def layerNormT (A : Act) (g b : ℕ → ℚ) (x : Tensor) : Tensor :=
  let n := lastDim x
  ⟨x.shape, fun idx =>
    let mu := (∑ i in Finset.range n, x.data (idx.dropLast ++ [i])) / (n : ℚ)
    let vr := (∑ i in Finset.range n, (x.data (idx.dropLast ++ [i]) - mu) ^ 2) / (n : ℚ)
    g (lastD idx) * ((x.data idx - mu) / A.sqrt (vr + 1 / 100000)) + b (lastD idx)⟩

/-- `nn.Conv2d` configuration (as fixed by a constructor call) plus its
weight function `[outC, inC, kh, kw]`; `bias=False` throughout the model. -/
structure Conv2dM where
  inC : ℕ
  outC : ℕ
  kh : ℕ
  kw : ℕ
  ph : ℕ
  pw : ℕ
  sh : ℕ
  sw : ℕ
  weight : ℕ → ℕ → ℕ → ℕ → ℚ

/-- Zero-padded read of a rank-4 tensor at a possibly out-of-range
spatial position. -/
def padGet (x : Tensor) (b c : ℕ) (i j : ℤ) : ℚ :=
  let H := (x.shape.getD 2 0 : ℤ)
  let W := (x.shape.getD 3 0 : ℤ)
  if 0 ≤ i ∧ i < H ∧ 0 ≤ j ∧ j < W then x.data [b, c, i.toNat, j.toNat] else 0

/-- `nn.Conv2d` forward (no bias): standard cross-correlation with zero
padding and the standard output-size formula. -/
def Conv2dM.forward (m : Conv2dM) (x : Tensor) : Tensor :=
  let B := x.shape.getD 0 0
  let H := x.shape.getD 2 0
  let W := x.shape.getD 3 0
  let Ho := (H + 2 * m.ph - m.kh) / m.sh + 1
  let Wo := (W + 2 * m.pw - m.kw) / m.sw + 1
  ⟨[B, m.outC, Ho, Wo], fun idx =>
    match idx with
    | [b, o, i, j] =>
      ∑ c in Finset.range m.inC, ∑ u in Finset.range m.kh, ∑ v in Finset.range m.kw,
        m.weight o c u v *
          padGet x b c ((i * m.sh + u : ℕ) - (m.ph : ℤ)) ((j * m.sw + v : ℕ) - (m.pw : ℤ))
    | _ => 0⟩

/-! ## The model modules of `audio_model.py` -/

/-- Weights of `AudioExtractor` (four bias-free convolutions). -/
structure AudioExtractorW where
  conv1 : ℕ → ℕ → ℕ → ℕ → ℚ
  conv2 : ℕ → ℕ → ℕ → ℕ → ℚ
  conv3 : ℕ → ℕ → ℕ → ℕ → ℚ
  conv4 : ℕ → ℕ → ℕ → ℕ → ℚ

/-- `AudioExtractor.forward`: four convolutions (ReLU after the first
three), then `transpose(2, 1)` and `reshape([batch_size, 512, -1])`. -/
def AudioExtractor.forward (w : AudioExtractorW) (x : Tensor) : Tensor :=
  let batch_size := x.shape.getD 0 0
  let x1 := reluT ((Conv2dM.mk 2 8 1 4 0 1 1 2 w.conv1).forward x)
  let x2 := reluT ((Conv2dM.mk 8 8 1 7 0 3 1 1 w.conv2).forward x1)
  let x3 := reluT ((Conv2dM.mk 8 24 1 4 0 1 1 2 w.conv3).forward x2)
  let x4 := (Conv2dM.mk 24 24 1 7 0 3 1 1 w.conv4).forward x3
  reshapeT (transposeT 2 1 x4) [(batch_size : ℤ), 512, -1]

/-- `padding_mask_audio`: `torch.all(audio != 0, axis=2).unsqueeze(-2)`. -/
def padding_mask_audio (audio : Tensor) : BTensor :=
  unsqueezeB (-2) (allAxisB 2 (neZeroB audio))

/-- `Self_Attention(Q, K, V, mask)`.  The dropout here models the
`nn.Dropout(p=0.1)` constructed afresh inside the function body: being a
freshly built module it is always in training mode, so its `training`
flag is hard-coded to `true` and it always consumes the keep-mask. -/
def Self_Attention (A : Act) (keep : List ℕ → Bool) (Q K V : Tensor)
    (mask : Option BTensor) : Tensor × Tensor :=
  let K_t := transposeT (-2) (-1) K
  let KV := matmulT Q K_t
  let dim := lastDim Q
  let score0 := divScalarT KV (A.sqrt (dim : ℚ))
  let score1 :=
    match mask with
    | some m => maskedFillT score0 (notB (unsqueezeB 1 m)) (-(1000000000 : ℚ))
    | none => score0
  let score := dropoutT (1 / 10) true keep (softmaxT A score1)
  let att_value := matmulT score V
  (att_value, score)

/-- Weights of `MHA` (four bias-free linear maps, each `hidden → hidden`). -/
structure MHAW where
  Q_fc : ℕ → ℕ → ℚ
  K_fc : ℕ → ℕ → ℚ
  V_fc : ℕ → ℕ → ℚ
  Out_fc : ℕ → ℕ → ℚ

/-- The per-head query tensor built inside `MHA.forward`:
`Q_fc(Q_input).view(batch, -1, num_head, head_dim).transpose(1, 2)`. -/
def MHA.queries (hidden_dim num_head : ℕ) (w : ℕ → ℕ → ℚ) (input : Tensor) : Tensor :=
  let batch_size := input.shape.getD 0 0
  let head_dim := hidden_dim / num_head
  transposeT 1 2 (reshapeT (LinearM.forward ⟨hidden_dim, hidden_dim, w, none⟩ input)
    [(batch_size : ℤ), -1, (num_head : ℤ), (head_dim : ℤ)])

/-- `MHA.forward` (the registered `self.dropout` is never used in the
source's forward, so it does not appear here). -/
def MHA.forward (A : Act) (hidden_dim num_head : ℕ) (w : MHAW) (keep : List ℕ → Bool)
    (Q_input K_input V_input : Tensor) (mask : Option BTensor) : Tensor :=
  let batch_size := Q_input.shape.getD 0 0
  let Q := MHA.queries hidden_dim num_head w.Q_fc Q_input
  let K := MHA.queries hidden_dim num_head w.K_fc K_input
  let V := MHA.queries hidden_dim num_head w.V_fc V_input
  let av := Self_Attention A keep Q K V mask
  let att_value := reshapeT (transposeT 1 2 av.1) [(batch_size : ℤ), -1, (hidden_dim : ℤ)]
  LinearM.forward ⟨hidden_dim, hidden_dim, w.Out_fc, none⟩ att_value

/-- Weights of `FFN` (two linear maps, with biases). -/
structure FFNW where
  fc1w : ℕ → ℕ → ℚ
  fc1b : ℕ → ℚ
  fc2w : ℕ → ℕ → ℚ
  fc2b : ℕ → ℚ

/-- `FFN.forward`: `fc2(dropout(relu(fc1 x))) + x`. -/
def FFN.forward (hidden_dim inner_dim : ℕ) (p : ℚ) (w : FFNW)
    (training : Bool) (keep : List ℕ → Bool) (x : Tensor) : Tensor :=
  let res := x
  let x1 := reluT (LinearM.forward ⟨hidden_dim, inner_dim, w.fc1w, some w.fc1b⟩ x)
  let x2 := dropoutT p training keep x1
  let x3 := LinearM.forward ⟨inner_dim, hidden_dim, w.fc2w, some w.fc2b⟩ x2
  addT x3 res

/-- Weights of one `AELayer1` (its MHA, two LayerNorms and FFN). -/
structure AELayer1W where
  mha : MHAW
  ln1g : ℕ → ℚ
  ln1b : ℕ → ℚ
  ln2g : ℕ → ℚ
  ln2b : ℕ → ℚ
  ffn : FFNW

/-- `AELayer1.forward`: post-norm transformer layer — multi-head
self-attention, residual add through `dropout1`, LayerNorm; FFN, residual
add through `dropout2`, LayerNorm. -/
def AELayer1.forward (A : Act) (hidden_dim num_head inner_dim : ℕ) (w : AELayer1W)
    (training : Bool) (kAttn k1 k2 kFfn : List ℕ → Bool)
    (x : Tensor) (mask : Option BTensor) : Tensor :=
  let o1 := MHA.forward A hidden_dim num_head w.mha kAttn x x x mask
  let o2 := layerNormT A w.ln1g w.ln1b (addT x (dropoutT (1 / 10) training k1 o1))
  let o3 := FFN.forward hidden_dim inner_dim (1 / 10) w.ffn training kFfn o2
  layerNormT A w.ln2g w.ln2b (addT o2 (dropoutT (1 / 10) training k2 o3))

/-- Weights of `AEBlock1`: one `AELayer1` weight set per layer index. -/
structure AEBlock1W where
  layers : ℕ → AELayer1W

/-- Explicit dropout keep-masks for every dropout site of the model,
indexed by encoder-layer number where appropriate. -/
structure Noise where
  attn : ℕ → List ℕ → Bool
  res1 : ℕ → List ℕ → Bool
  res2 : ℕ → List ℕ → Bool
  ffn : ℕ → List ℕ → Bool
  gru : List ℕ → Bool

/-- `AEBlock1.forward`: the padding mask is computed once from the block
input, then every layer is applied in sequence with that same mask. -/
def AEBlock1.forward (A : Act) (hidden_dim num_head inner_dim n_layers : ℕ)
    (w : AEBlock1W) (training : Bool) (nz : Noise) (x : Tensor) : Tensor :=
  let masking := padding_mask_audio x
  (List.range n_layers).foldl
    (fun acc i => AELayer1.forward A hidden_dim num_head inner_dim (w.layers i)
      training (nz.attn i) (nz.res1 i) (nz.res2 i) (nz.ffn i) acc (some masking)) x

/-- Weights of the bias-free 2-layer GRU (`W_ih`/`W_hh` per layer, rows
packed `r, z, n` as in PyTorch). -/
structure GRUW where
  wih1 : ℕ → ℕ → ℚ
  whh1 : ℕ → ℕ → ℚ
  wih2 : ℕ → ℕ → ℚ
  whh2 : ℕ → ℕ → ℚ

/-- One bias-free GRU cell step with hidden size 64:
`r = σ(W_ir x + W_hr h)`, `z = σ(W_iz x + W_hz h)`,
`n = tanh(W_in x + r ⊙ (W_hn h))`, `h' = (1 - z) ⊙ n + z ⊙ h`. -/
def gruCellF (A : Act) (inD : ℕ) (wih whh : ℕ → ℕ → ℚ) (x h : ℕ → ℚ) : ℕ → ℚ :=
  fun i =>
    let rg := A.sigmoid ((∑ j in Finset.range inD, wih i j * x j) +
      ∑ j in Finset.range 64, whh i j * h j)
    let zg := A.sigmoid ((∑ j in Finset.range inD, wih (64 + i) j * x j) +
      ∑ j in Finset.range 64, whh (64 + i) j * h j)
    let ng := A.tanh ((∑ j in Finset.range inD, wih (128 + i) j * x j) +
      rg * ∑ j in Finset.range 64, whh (128 + i) j * h j)
    (1 - zg) * ng + zg * h i

/-- Hidden state of one GRU layer after `t` input steps. -/
def gruSeq (A : Act) (inD : ℕ) (wih whh : ℕ → ℕ → ℚ) (xs : ℕ → ℕ → ℚ)
    (h0 : ℕ → ℚ) : ℕ → ℕ → ℚ
  | 0 => h0
  | t + 1 => gruCellF A inD wih whh (xs t) (gruSeq A inD wih whh xs h0 t)

/-- `nn.GRU(input_size=hidden, hidden_size=64, num_layers=2, bias=False,
batch_first=True, dropout=0.1)`: layer 1 over the input sequence, dropout
on its outputs (training only), layer 2 over that; returns the layer-2
output sequence and the final hidden states of both layers. -/
def gruForward (A : Act) (g : GRUW) (training : Bool) (keep : List ℕ → Bool)
    (x h0 : Tensor) : Tensor × Tensor :=
  let B := x.shape.getD 0 0
  let L := x.shape.getD 1 0
  let inD := x.shape.getD 2 0
  let h1 := fun b => gruSeq A inD g.wih1 g.whh1 (fun t j => x.data [b, t, j])
    (fun j => h0.data [0, b, j])
  let d1 := fun b t j =>
    if training then (if keep [b, t, j] then h1 b (t + 1) j / (1 - 1 / 10) else 0)
    else h1 b (t + 1) j
  let h2 := fun b => gruSeq A 64 g.wih2 g.whh2 (fun t => d1 b t)
    (fun j => h0.data [1, b, j])
  (⟨[B, L, 64], fun idx =>
      match idx with
      | [b, t, j] => h2 b (t + 1) j
      | _ => 0⟩,
   ⟨[2, B, 64], fun idx =>
      match idx with
      | [l, b, j] => (if l = 0 then h1 b L else h2 b L) j
      | _ => 0⟩)

/-- `out[:, -1, :]`: the output at the last time step. -/
def sliceLastTime (x : Tensor) : Tensor :=
  let L := x.shape.getD 1 0
  ⟨[x.shape.getD 0 0, x.shape.getD 2 0], fun idx =>
    match idx with
    | [b, j] => x.data [b, L - 1, j]
    | _ => 0⟩

/-- All weights of `AudioRegressor`. -/
structure AudioRegressorW where
  ext : AudioExtractorW
  block : AEBlock1W
  gru : GRUW
  fcw : ℕ → ℕ → ℚ
  fcb : ℕ → ℚ

/-- `AudioRegressor.forward`: extractor, encoder block, GRU from a zero
initial hidden state, last-time-step slice, final `Linear(64, 1)`;
returns `(output, audio_output)`. -/
def AudioRegressor.forward (A : Act) (hidden_dim num_head inner_dim n_layers : ℕ)
    (w : AudioRegressorW) (training : Bool) (nz : Noise) (audio : Tensor) :
    Tensor × Tensor :=
  let batch_size := audio.shape.getD 0 0
  let audio_output := AudioExtractor.forward w.ext audio
  let audio_output := AEBlock1.forward A hidden_dim num_head inner_dim n_layers
    w.block training nz audio_output
  let h0 := zerosT [2, batch_size, 64]
  let og := gruForward A w.gru training nz.gru audio_output h0
  let h_t := sliceLastTime og.1
  let output := LinearM.forward ⟨64, 1, w.fcw, some w.fcb⟩ h_t
  (output, audio_output)

/-! ## Top level of the module `audio_model.py`

The file's top-level statements, embedded so that claims about what the
file contains (and what executes on import) can be checked.  The
statement datatype has constructors for the kinds of top-level code a
training script would contain (loops, `if __name__ == "__main__"` guards,
bare calls), so that their absence is a checkable fact of the
translation. -/

/-- Names bound at the top level of `audio_model.py`. -/
inductive PyName
  | math
  | torch
  | torch_nn
  | torch_nn_functional
  | device
  | nAudioExtractor
  | nPaddingMaskAudio
  | nFFN
  | nSelfAttention
  | nMHA
  | nAELayer1
  | nAEBlock1
  | nAudioRegressor
  deriving DecidableEq

/-- Kinds of top-level Python statements. -/
inductive PyStmt
  | importStmt (m : PyName)
  | assignStmt (target : PyName)
  | classDef (n : PyName)
  | funcDef (n : PyName)
  | forLoop
  | whileLoop
  | ifMainGuard
  | bareCall
  deriving DecidableEq

/-- The top-level statement list of `audio_model.py`, in source order. -/
def audioModelTop : List PyStmt :=
  [PyStmt.importStmt PyName.math,
   PyStmt.importStmt PyName.torch,
   PyStmt.importStmt PyName.torch_nn,
   PyStmt.importStmt PyName.torch_nn_functional,
   PyStmt.assignStmt PyName.device,
   PyStmt.classDef PyName.nAudioExtractor,
   PyStmt.funcDef PyName.nPaddingMaskAudio,
   PyStmt.classDef PyName.nFFN,
   PyStmt.funcDef PyName.nSelfAttention,
   PyStmt.classDef PyName.nMHA,
   PyStmt.classDef PyName.nAELayer1,
   PyStmt.classDef PyName.nAEBlock1,
   PyStmt.classDef PyName.nAudioRegressor]

/-- Whether a top-level statement runs computation on import beyond
binding a definition. -/
def runsOnImport : PyStmt → Bool
  | PyStmt.assignStmt _ => true
  | PyStmt.forLoop => true
  | PyStmt.whileLoop => true
  | PyStmt.ifMainGuard => true
  | PyStmt.bareCall => true
  | _ => false

/-- The name a class definition binds, if the statement is one. -/
def classNameOf : PyStmt → Option PyName
  | PyStmt.classDef n => some n
  | _ => none

/-- The name a function definition binds, if the statement is one. -/
def funcNameOf : PyStmt → Option PyName
  | PyStmt.funcDef n => some n
  | _ => none

/-! ## Shape lemmas for the tensor operations -/

theorem reluT_shape (x : Tensor) : (reluT x).shape = x.shape := rfl

theorem addT_shape (x y : Tensor) : (addT x y).shape = x.shape := rfl

theorem divScalarT_shape (x : Tensor) (c : ℚ) : (divScalarT x c).shape = x.shape := rfl

theorem softmaxT_shape (A : Act) (x : Tensor) : (softmaxT A x).shape = x.shape := rfl

theorem maskedFillT_shape (x : Tensor) (m : BTensor) (v : ℚ) :
    (maskedFillT x m v).shape = x.shape := rfl

theorem layerNormT_shape (A : Act) (g b : ℕ → ℚ) (x : Tensor) :
    (layerNormT A g b x).shape = x.shape := rfl

theorem dropoutT_shape (p : ℚ) (tr : Bool) (k : List ℕ → Bool) (x : Tensor) :
    (dropoutT p tr k x).shape = x.shape := by
  unfold dropoutT; split <;> rfl

theorem linearM_shape (m : LinearM) (x : Tensor) :
    (LinearM.forward m x).shape = x.shape.dropLast ++ [m.outF] := rfl

theorem matmulT_shape (x y : Tensor) :
    (matmulT x y).shape = x.shape.dropLast ++ [lastDim y] := rfl

/-! ## Shape of the convolutional extractor -/

theorem conv1_shape (w : AudioExtractorW) (x : Tensor) (B : ℕ)
    (hx : x.shape = [B, 2, 512, 128]) :
    ((Conv2dM.mk 2 8 1 4 0 1 1 2 w.conv1).forward x).shape = [B, 8, 512, 64] := by
  simp [Conv2dM.forward, hx]

theorem conv2_shape (w : AudioExtractorW) (y : Tensor) (B : ℕ)
    (hy : y.shape = [B, 8, 512, 64]) :
    ((Conv2dM.mk 8 8 1 7 0 3 1 1 w.conv2).forward y).shape = [B, 8, 512, 64] := by
  simp [Conv2dM.forward, hy]

theorem conv3_shape (w : AudioExtractorW) (y : Tensor) (B : ℕ)
    (hy : y.shape = [B, 8, 512, 64]) :
    ((Conv2dM.mk 8 24 1 4 0 1 1 2 w.conv3).forward y).shape = [B, 24, 512, 32] := by
  simp [Conv2dM.forward, hy]

theorem conv4_shape (w : AudioExtractorW) (y : Tensor) (B : ℕ)
    (hy : y.shape = [B, 24, 512, 32]) :
    ((Conv2dM.mk 24 24 1 7 0 3 1 1 w.conv4).forward y).shape = [B, 24, 512, 32] := by
  simp [Conv2dM.forward, hy]

theorem extractor_shape (w : AudioExtractorW) (x : Tensor) (B : ℕ) (hB : 0 < B)
    (hx : x.shape = [B, 2, 512, 128]) :
    (AudioExtractor.forward w x).shape = [B, 512, 768] := by
  unfold AudioExtractor.forward
  have h1 := conv1_shape w x B hx
  have h2 := conv2_shape w _ B (by rw [reluT_shape]; exact h1)
  have h3 := conv3_shape w _ B (by rw [reluT_shape]; exact h2)
  have h4 := conv4_shape w _ B (by rw [reluT_shape]; exact h3)
  have hBne : (B : ℤ) ≠ -1 := by omega
  clear h1 h2 h3
  simp only [reshapeT, transposeT, swapAt2, resolveDim, h4, hx]
  clear h4 hx
  norm_num [hBne]
  refine ⟨rfl, ?_⟩
  show (([B, 24, 512, 32].set 2 24).set 1 512).prod / (B * 512) = 768
  have hp : (([B, 24, 512, 32].set 2 24).set 1 512).prod = B * 512 * 768 := by
    simp [List.set]; ring
  rw [hp, Nat.mul_div_cancel_left 768 (by positivity : 0 < B * 512)]

theorem natCast_ne_negOne (m : ℕ) : (m : ℤ) ≠ -1 := by omega

theorem mha_queries_shape (hidden nh : ℕ) (wf : ℕ → ℕ → ℚ) (x : Tensor) (B L : ℕ)
    (hB : 0 < B) (hh : 0 < hidden) (hd : nh ∣ hidden) (hx : x.shape = [B, L, hidden]) :
    (MHA.queries hidden nh wf x).shape = [B, nh, L, hidden / nh] := by
  have hnh : 0 < nh := by
    rcases Nat.eq_zero_or_pos nh with h0 | h1
    · subst h0; rcases hd with ⟨c, hc⟩; omega
    · exact h1
  have hm : nh * (hidden / nh) = hidden := Nat.mul_div_cancel' hd
  unfold MHA.queries
  set d := hidden / nh with hdd
  simp only [transposeT, reshapeT, LinearM.forward, swapAt2, resolveDim, hx]
  norm_num [natCast_ne_negOne]
  have hdpos : 0 < d := Nat.pos_of_ne_zero (fun h0 => by rw [h0, mul_zero] at hm; omega)
  have hQ : B * (L * hidden) / (B * nh * d) = L := by
    rw [show B * (L * hidden) = B * nh * d * L by rw [← hm]; ring]
    exact Nat.mul_div_cancel_left L (by positivity)
  show [B, nh, B * (L * hidden) / (B * nh * d), d] = [B, nh, L, d]
  rw [hQ]

theorem self_attention_att_shape (A : Act) (keep : List ℕ → Bool) (Q K V : Tensor)
    (mask : Option BTensor) (a b n m : ℕ)
    (hQ : Q.shape = [a, b, n, m]) (hK : K.shape = [a, b, n, m])
    (hV : V.shape = [a, b, n, m]) :
    (Self_Attention A keep Q K V mask).1.shape = [a, b, n, m] := by
  unfold Self_Attention
  cases mask with
  | none =>
    simp [matmulT, dropoutT_shape, softmaxT, divScalarT, transposeT, swapAt2, resolveDim,
      lastDim, lastD, hQ, hK, hV, List.set]
  | some mm =>
    simp [matmulT, dropoutT_shape, softmaxT, divScalarT, maskedFillT, transposeT, swapAt2,
      resolveDim, lastDim, lastD, hQ, hK, hV, List.set]

theorem mha_forward_shape (A : Act) (hidden nh : ℕ) (w : MHAW) (keep : List ℕ → Bool)
    (x : Tensor) (mask : Option BTensor) (B L : ℕ)
    (hB : 0 < B) (hh : 0 < hidden) (hd : nh ∣ hidden) (hx : x.shape = [B, L, hidden]) :
    (MHA.forward A hidden nh w keep x x x mask).shape = [B, L, hidden] := by
  have hnh : 0 < nh := by
    rcases Nat.eq_zero_or_pos nh with h0 | h1
    · subst h0; rcases hd with ⟨c, hc⟩; omega
    · exact h1
  have hm : nh * (hidden / nh) = hidden := Nat.mul_div_cancel' hd
  have hdpos : 0 < hidden / nh := Nat.pos_of_ne_zero (fun h0 => by rw [h0, mul_zero] at hm; omega)
  have hq := mha_queries_shape hidden nh w.Q_fc x B L hB hh hd hx
  have hk := mha_queries_shape hidden nh w.K_fc x B L hB hh hd hx
  have hv := mha_queries_shape hidden nh w.V_fc x B L hB hh hd hx
  have hatt := self_attention_att_shape A keep _ _ _ mask B nh L (hidden / nh) hq hk hv
  unfold MHA.forward
  set d := hidden / nh with hdd
  simp only [LinearM.forward, reshapeT, transposeT, swapAt2, resolveDim, hatt, hx]
  norm_num [natCast_ne_negOne]
  show ([B, L, nh, d] : List ℕ).prod / (B * hidden) = L
  rw [show ([B, L, nh, d] : List ℕ).prod = B * hidden * L by
    rw [← hm]; simp; ring]
  exact Nat.mul_div_cancel_left L (by positivity)

theorem ffn_forward_shape (hidden inner : ℕ) (p : ℚ) (w : FFNW) (tr : Bool)
    (k : List ℕ → Bool) (x : Tensor) (B L : ℕ) (hx : x.shape = [B, L, hidden]) :
    (FFN.forward hidden inner p w tr k x).shape = [B, L, hidden] := by
  unfold FFN.forward
  simp [addT, LinearM.forward, dropoutT_shape, reluT, hx]

theorem aelayer_forward_shape (A : Act) (hidden nh inner : ℕ) (w : AELayer1W)
    (tr : Bool) (ka k1 k2 kf : List ℕ → Bool) (x : Tensor) (mask : Option BTensor) :
    (AELayer1.forward A hidden nh inner w tr ka k1 k2 kf x mask).shape = x.shape := rfl

theorem aeblock_forward_shape (A : Act) (hidden nh inner n : ℕ) (w : AEBlock1W)
    (tr : Bool) (nz : Noise) (x : Tensor) :
    (AEBlock1.forward A hidden nh inner n w tr nz x).shape = x.shape := by
  unfold AEBlock1.forward
  suffices h : ∀ (l : List ℕ) (y : Tensor),
      (l.foldl (fun acc i => AELayer1.forward A hidden nh inner (w.layers i) tr
        (nz.attn i) (nz.res1 i) (nz.res2 i) (nz.ffn i) acc
        (some (padding_mask_audio x))) y).shape = y.shape by
    exact h _ x
  intro l
  induction l with
  | nil => intro y; rfl
  | cons a t ih => intro y; rw [List.foldl_cons, ih]; rfl

theorem gru_out_shape (A : Act) (g : GRUW) (tr : Bool) (k : List ℕ → Bool)
    (x h0 : Tensor) :
    (gruForward A g tr k x h0).1.shape = [x.shape.getD 0 0, x.shape.getD 1 0, 64] := rfl

theorem sliceLastTime_shape (x : Tensor) :
    (sliceLastTime x).shape = [x.shape.getD 0 0, x.shape.getD 2 0] := rfl

/-- C1: for every audio input of shape `[B, 2, 512, 128]` (with `B > 0`),
`AudioRegressor.forward` returns a pair whose first element has shape
`[B, 1]`, and that first element is exactly the final `Linear(64, 1)`
applied to the last-time-step GRU output, with no output activation. -/
theorem audioRegressor_output_shape (A : Act) (w : AudioRegressorW) (tr : Bool)
    (nz : Noise) (audio : Tensor) (B : ℕ) (hB : 0 < B)
    (hx : audio.shape = [B, 2, 512, 128]) :
    ((AudioRegressor.forward A 768 4 1536 6 w tr nz audio).1).shape = [B, 1] ∧
    (AudioRegressor.forward A 768 4 1536 6 w tr nz audio).1 =
      LinearM.forward ⟨64, 1, w.fcw, some w.fcb⟩ (sliceLastTime
        (gruForward A w.gru tr nz.gru
          (AEBlock1.forward A 768 4 1536 6 w.block tr nz
            (AudioExtractor.forward w.ext audio))
          (zerosT [2, audio.shape.getD 0 0, 64])).1) := by
  refine ⟨?_, rfl⟩
  have he := extractor_shape w.ext audio B hB hx
  have hb := aeblock_forward_shape A 768 4 1536 6 w.block tr nz
    (AudioExtractor.forward w.ext audio)
  rw [he] at hb
  unfold AudioRegressor.forward
  simp only [linearM_shape, sliceLastTime_shape, gru_out_shape, hb]
  simp [List.getD]

/-- C2: `AudioRegressor.forward` composes, in order and with no other
stages, the convolutional extractor, the `AEBlock1` encoder, the GRU and
the final linear layer; the second element of the returned pair is exactly
the `AEBlock1` output (the tensor fed to the GRU), unchanged. -/
theorem audioRegressor_forward_composition (A : Act) (hidden nh inner nl : ℕ)
    (w : AudioRegressorW) (tr : Bool) (nz : Noise) (audio : Tensor) :
    AudioRegressor.forward A hidden nh inner nl w tr nz audio =
      (LinearM.forward ⟨64, 1, w.fcw, some w.fcb⟩ (sliceLastTime
        (gruForward A w.gru tr nz.gru
          (AEBlock1.forward A hidden nh inner nl w.block tr nz
            (AudioExtractor.forward w.ext audio))
          (zerosT [2, audio.shape.getD 0 0, 64])).1),
       AEBlock1.forward A hidden nh inner nl w.block tr nz
         (AudioExtractor.forward w.ext audio)) := rfl

/-- The attention score exactly as the spec words it: pairwise scores
`Q·Kᵀ` scaled by the square root of the last dimension of `Q`, masked key
positions filled with `-1e9` before the softmax over the last dimension,
then dropout. -/
def attnScoreSpec (A : Act) (keep : List ℕ → Bool) (Q K : Tensor)
    (mask : Option BTensor) : Tensor :=
  dropoutT (1 / 10) true keep (softmaxT A
    (match mask with
     | some m =>
       maskedFillT (divScalarT (matmulT Q (transposeT (-2) (-1) K))
         (A.sqrt (lastDim Q : ℚ))) (notB (unsqueezeB 1 m)) (-(1000000000 : ℚ))
     | none =>
       divScalarT (matmulT Q (transposeT (-2) (-1) K)) (A.sqrt (lastDim Q : ℚ))))

/-- C3: `Self_Attention(Q, K, V, mask)` returns `(score · V, score)` where
`score = dropout(softmax(Q·Kᵀ / sqrt(d)))` with `d` the last dimension of
`Q`, and masked key positions filled with `-1e9` before the softmax; in
`MHA` the per-head query tensor has last dimension
`head_dim = hidden_dim / num_head`, so the scaling uses `head_dim`. -/
theorem self_attention_formula (A : Act) (keep : List ℕ → Bool) (Q K V : Tensor)
    (mask : Option BTensor) (hidden nh B L : ℕ) (wq : ℕ → ℕ → ℚ) (x : Tensor)
    (hB : 0 < B) (hh : 0 < hidden) (hd : nh ∣ hidden) (hx : x.shape = [B, L, hidden]) :
    Self_Attention A keep Q K V mask =
      (matmulT (attnScoreSpec A keep Q K mask) V, attnScoreSpec A keep Q K mask) ∧
    lastDim (MHA.queries hidden nh wq x) = hidden / nh := by
  constructor
  · unfold Self_Attention attnScoreSpec
    cases mask <;> rfl
  · rw [lastDim, mha_queries_shape hidden nh wq x B L hB hh hd hx]
    simp [lastD, List.getD]

/-- C4: the recurrent decoder is the 2-layer, batch-first, bias-free GRU
with hidden size 64 embedded in `gruForward`, always started from the
zero initial hidden state; the prediction applies the final linear layer
to `out[:, -1, :]` only, and the GRU output at time `t` is the two-layer
recurrence value after `t + 1` steps, so it depends on earlier time steps
only through the recurrence. -/
theorem gru_decoder_structure (A : Act) (hidden nh inner nl : ℕ) (w : AudioRegressorW)
    (tr : Bool) (nz : Noise) (audio y x h0 : Tensor) (g : GRUW) (k : List ℕ → Bool)
    (b t j : ℕ) :
    (AudioRegressor.forward A hidden nh inner nl w tr nz audio).1 =
      LinearM.forward ⟨64, 1, w.fcw, some w.fcb⟩ (sliceLastTime
        (gruForward A w.gru tr nz.gru
          (AEBlock1.forward A hidden nh inner nl w.block tr nz
            (AudioExtractor.forward w.ext audio))
          (zerosT [2, audio.shape.getD 0 0, 64])).1) ∧
    (sliceLastTime y).data [b, j] = y.data [b, y.shape.getD 1 0 - 1, j] ∧
    (gruForward A g tr k x h0).1.data [b, t, j] =
      gruSeq A 64 g.wih2 g.whh2
        (fun s i =>
          if tr then
            (if k [b, s, i] then
              gruSeq A (x.shape.getD 2 0) g.wih1 g.whh1 (fun u v => x.data [b, u, v])
                (fun v => h0.data [0, b, v]) (s + 1) i / (1 - 1 / 10)
            else 0)
          else
            gruSeq A (x.shape.getD 2 0) g.wih1 g.whh1 (fun u v => x.data [b, u, v])
              (fun v => h0.data [0, b, v]) (s + 1) i)
        (fun v => h0.data [1, b, v]) (t + 1) j :=
  ⟨rfl, rfl, rfl⟩

/-- C5: `AELayer1` maps any input of shape `[B, L, 768]` to the same
shape — the multi-head attention and the FFN sublayers both return
`[B, L, 768]` — and `AEBlock1` applies its layers sequentially, passing
every layer the same padding mask computed once from the block input, so
`[B, 512, 768]` is invariant through the whole encoder. -/
theorem encoder_shape_invariant (A : Act) (nh inner : ℕ) (w : AELayer1W) (tr : Bool)
    (ka k1 k2 kf : List ℕ → Bool) (x : Tensor) (mask : Option BTensor) (B L : ℕ)
    (hB : 0 < B) (hd : nh ∣ 768) (hx : x.shape = [B, L, 768])
    (bw : AEBlock1W) (nz : Noise) (n : ℕ) (y : Tensor) (hy : y.shape = [B, 512, 768]) :
    (MHA.forward A 768 nh w.mha ka x x x mask).shape = [B, L, 768] ∧
    (FFN.forward 768 inner (1 / 10) w.ffn tr kf x).shape = [B, L, 768] ∧
    (AELayer1.forward A 768 nh inner w tr ka k1 k2 kf x mask).shape = [B, L, 768] ∧
    (AEBlock1.forward A 768 nh inner n bw tr nz y).shape = [B, 512, 768] ∧
    AEBlock1.forward A 768 nh inner n bw tr nz y =
      (List.range n).foldl
        (fun acc i => AELayer1.forward A 768 nh inner (bw.layers i) tr
          (nz.attn i) (nz.res1 i) (nz.res2 i) (nz.ffn i) acc
          (some (padding_mask_audio y))) y := by
  refine ⟨mha_forward_shape A 768 nh w.mha ka x mask B L hB (by norm_num) hd hx,
    ffn_forward_shape 768 inner (1 / 10) w.ffn tr kf x B L hx, ?_, ?_, rfl⟩
  · rw [aelayer_forward_shape, hx]
  · rw [aeblock_forward_shape, hy]

/-- C6: the source file's top level consists exactly of six class
definitions (`AudioExtractor`, `FFN`, `MHA`, `AELayer1`, `AEBlock1`,
`AudioRegressor`) and two function definitions (`padding_mask_audio`,
`Self_Attention`); it contains no loop, no main-guard and no bare call,
and the only statement that runs computation on import is the `device`
assignment. -/
theorem module_top_level :
    audioModelTop.filterMap classNameOf =
      [PyName.nAudioExtractor, PyName.nFFN, PyName.nMHA, PyName.nAELayer1,
       PyName.nAEBlock1, PyName.nAudioRegressor] ∧
    audioModelTop.filterMap funcNameOf =
      [PyName.nPaddingMaskAudio, PyName.nSelfAttention] ∧
    audioModelTop.filter (fun s => runsOnImport s) =
      [PyStmt.assignStmt PyName.device] ∧
    ∀ s ∈ audioModelTop, s ≠ PyStmt.forLoop ∧ s ≠ PyStmt.whileLoop ∧
      s ≠ PyStmt.ifMainGuard ∧ s ≠ PyStmt.bareCall := by
  refine ⟨rfl, rfl, rfl, ?_⟩
  decide

/-- C7: on input `[B, 2, 512, 128]`, the four convolutions preserve the
time length 512 while the frequency dimension shrinks
`128 → 64 → 64 → 32 → 32` and the channels grow `2 → 8 → 8 → 24 → 24`,
and the final transpose-and-reshape yields `[B, 512, 768]`
(24 channels × 32 frequencies stacked per time step). -/
theorem audioExtractor_stage_shapes (w : AudioExtractorW) (x : Tensor) (B : ℕ)
    (hB : 0 < B) (hx : x.shape = [B, 2, 512, 128]) :
    ((Conv2dM.mk 2 8 1 4 0 1 1 2 w.conv1).forward x).shape = [B, 8, 512, 64] ∧
    ((Conv2dM.mk 8 8 1 7 0 3 1 1 w.conv2).forward
      (reluT ((Conv2dM.mk 2 8 1 4 0 1 1 2 w.conv1).forward x))).shape = [B, 8, 512, 64] ∧
    ((Conv2dM.mk 8 24 1 4 0 1 1 2 w.conv3).forward
      (reluT ((Conv2dM.mk 8 8 1 7 0 3 1 1 w.conv2).forward
        (reluT ((Conv2dM.mk 2 8 1 4 0 1 1 2 w.conv1).forward x))))).shape =
      [B, 24, 512, 32] ∧
    ((Conv2dM.mk 24 24 1 7 0 3 1 1 w.conv4).forward
      (reluT ((Conv2dM.mk 8 24 1 4 0 1 1 2 w.conv3).forward
        (reluT ((Conv2dM.mk 8 8 1 7 0 3 1 1 w.conv2).forward
          (reluT ((Conv2dM.mk 2 8 1 4 0 1 1 2 w.conv1).forward x))))))).shape =
      [B, 24, 512, 32] ∧
    (AudioExtractor.forward w x).shape = [B, 512, 768] := by
  have h1 := conv1_shape w x B hx
  have h2 := conv2_shape w _ B (by rw [reluT_shape]; exact h1)
  have h3 := conv3_shape w _ B (by rw [reluT_shape]; exact h2)
  have h4 := conv4_shape w _ B (by rw [reluT_shape]; exact h3)
  exact ⟨h1, h2, h3, h4, extractor_shape w x B hB hx⟩

/-- C8: for a `[B, L, D]` input, `padding_mask_audio` returns a Boolean
tensor of shape `[B, 1, L]` whose entry at time `l` is true iff every one
of the `D` components of frame `l` is nonzero; and `AEBlock1.forward`
computes this mask from its own input (the extractor's output features,
not the raw audio). -/
theorem padding_mask_semantics (t : Tensor) (B L D : ℕ) (ht : t.shape = [B, L, D])
    (A : Act) (hidden nh inner n : ℕ) (w : AEBlock1W) (tr : Bool) (nz : Noise)
    (x : Tensor) (b l : ℕ) :
    (padding_mask_audio t).shape = [B, 1, L] ∧
    (padding_mask_audio t).data [b, 0, l] =
      decide (∀ d, d < D → t.data [b, l, d] ≠ 0) ∧
    AEBlock1.forward A hidden nh inner n w tr nz x =
      (List.range n).foldl
        (fun acc i => AELayer1.forward A hidden nh inner (w.layers i) tr
          (nz.attn i) (nz.res1 i) (nz.res2 i) (nz.ffn i) acc
          (some (padding_mask_audio x))) x := by
  refine ⟨?_, ?_, rfl⟩
  · simp [padding_mask_audio, unsqueezeB, allAxisB, neZeroB, resolveIns, eraAt, insAt, ht]
  · show (unsqueezeB (-2) (allAxisB 2 (neZeroB t))).data [b, 0, l] = _
    simp only [padding_mask_audio, unsqueezeB, allAxisB, neZeroB, resolveIns, ht]
    norm_num
    rw [show (eraAt 2 [B, L, D] : List ℕ).length + 1 - Int.toNat 2 = 1 from rfl]
    simp only [eraAt, insAt]
    apply Bool.eq_iff_iff.mpr
    simp [List.all_eq_true, List.mem_range]

/-! ## Concrete instances used by the witnesses -/

/-- A concrete valuation of the abstract primitives. -/
def actOne : Act := ⟨fun _ => 1, fun _ => 1, fun q => q, fun q => q⟩

/-- All-zero extractor weights. -/
def zeroExtW : AudioExtractorW :=
  ⟨fun _ _ _ _ => 0, fun _ _ _ _ => 0, fun _ _ _ _ => 0, fun _ _ _ _ => 0⟩

/-- All-zero multi-head-attention weights. -/
def zeroMHAW : MHAW := ⟨fun _ _ => 0, fun _ _ => 0, fun _ _ => 0, fun _ _ => 0⟩

/-- All-zero feed-forward weights. -/
def zeroFFNW : FFNW := ⟨fun _ _ => 0, fun _ => 0, fun _ _ => 0, fun _ => 0⟩

/-- All-zero encoder-layer weights. -/
def zeroLayerW : AELayer1W :=
  ⟨zeroMHAW, fun _ => 0, fun _ => 0, fun _ => 0, fun _ => 0, zeroFFNW⟩

/-- All-zero encoder-block weights. -/
def zeroBlockW : AEBlock1W := ⟨fun _ => zeroLayerW⟩

/-- All-zero GRU weights. -/
def zeroGRUW : GRUW := ⟨fun _ _ => 0, fun _ _ => 0, fun _ _ => 0, fun _ _ => 0⟩

/-- All-zero regressor weights. -/
def zeroRegW : AudioRegressorW := ⟨zeroExtW, zeroBlockW, zeroGRUW, fun _ _ => 0, fun _ => 0⟩

/-- Keep-everything dropout noise. -/
def keepAllNoise : Noise :=
  ⟨fun _ _ => true, fun _ _ => true, fun _ _ => true, fun _ _ => true, fun _ => true⟩

theorem audioRegressor_output_shape_witness :
    0 < 1 ∧ (zerosT [1, 2, 512, 128]).shape = [1, 2, 512, 128] ∧
    ((AudioRegressor.forward actOne 768 4 1536 6 zeroRegW false keepAllNoise
      (zerosT [1, 2, 512, 128])).1).shape = [1, 1] :=
  ⟨Nat.one_pos, rfl,
    (audioRegressor_output_shape actOne zeroRegW false keepAllNoise
      (zerosT [1, 2, 512, 128]) 1 Nat.one_pos rfl).1⟩

theorem self_attention_formula_witness :
    0 < 1 ∧ 0 < 768 ∧ (8 : ℕ) ∣ 768 ∧ (zerosT [1, 1, 768]).shape = [1, 1, 768] ∧
    (Self_Attention actOne (fun _ => true) (zerosT [1]) (zerosT [1]) (zerosT [1]) none =
      (matmulT (attnScoreSpec actOne (fun _ => true) (zerosT [1]) (zerosT [1]) none)
        (zerosT [1]),
       attnScoreSpec actOne (fun _ => true) (zerosT [1]) (zerosT [1]) none) ∧
     lastDim (MHA.queries 768 8 (fun _ _ => 0) (zerosT [1, 1, 768])) = 768 / 8) :=
  ⟨Nat.one_pos, by norm_num, by norm_num, rfl,
    self_attention_formula actOne (fun _ => true) (zerosT [1]) (zerosT [1]) (zerosT [1])
      none 768 8 1 1 (fun _ _ => 0) (zerosT [1, 1, 768]) Nat.one_pos (by norm_num)
      (by norm_num) rfl⟩

theorem encoder_shape_invariant_witness :
    0 < 1 ∧ (8 : ℕ) ∣ 768 ∧ (zerosT [1, 3, 768]).shape = [1, 3, 768] ∧
    (zerosT [1, 512, 768]).shape = [1, 512, 768] ∧
    ((MHA.forward actOne 768 8 zeroLayerW.mha (fun _ => true) (zerosT [1, 3, 768])
      (zerosT [1, 3, 768]) (zerosT [1, 3, 768]) none).shape = [1, 3, 768] ∧
     (FFN.forward 768 1024 (1 / 10) zeroLayerW.ffn false (fun _ => true)
      (zerosT [1, 3, 768])).shape = [1, 3, 768] ∧
     (AELayer1.forward actOne 768 8 1024 zeroLayerW false (fun _ => true) (fun _ => true)
      (fun _ => true) (fun _ => true) (zerosT [1, 3, 768]) none).shape = [1, 3, 768] ∧
     (AEBlock1.forward actOne 768 8 1024 2 zeroBlockW false keepAllNoise
      (zerosT [1, 512, 768])).shape = [1, 512, 768] ∧
     AEBlock1.forward actOne 768 8 1024 2 zeroBlockW false keepAllNoise
       (zerosT [1, 512, 768]) =
       (List.range 2).foldl
         (fun acc i => AELayer1.forward actOne 768 8 1024 (zeroBlockW.layers i) false
           (keepAllNoise.attn i) (keepAllNoise.res1 i) (keepAllNoise.res2 i)
           (keepAllNoise.ffn i) acc
           (some (padding_mask_audio (zerosT [1, 512, 768])))) (zerosT [1, 512, 768])) :=
  ⟨Nat.one_pos, by norm_num, rfl, rfl,
    encoder_shape_invariant actOne 8 1024 zeroLayerW false (fun _ => true) (fun _ => true)
      (fun _ => true) (fun _ => true) (zerosT [1, 3, 768]) none 1 3 Nat.one_pos
      (by norm_num) rfl zeroBlockW keepAllNoise 2 (zerosT [1, 512, 768]) rfl⟩

theorem audioExtractor_stage_shapes_witness :
    0 < 1 ∧ (zerosT [1, 2, 512, 128]).shape = [1, 2, 512, 128] ∧
    (AudioExtractor.forward zeroExtW (zerosT [1, 2, 512, 128])).shape = [1, 512, 768] :=
  ⟨Nat.one_pos, rfl,
    (audioExtractor_stage_shapes zeroExtW (zerosT [1, 2, 512, 128]) 1 Nat.one_pos
      rfl).2.2.2.2⟩

theorem padding_mask_semantics_witness :
    (zerosT [1, 2, 3]).shape = [1, 2, 3] ∧
    (padding_mask_audio (zerosT [1, 2, 3])).shape = [1, 1, 2] ∧
    (padding_mask_audio (zerosT [1, 2, 3])).data [0, 0, 1] = false := by
  refine ⟨rfl,
    (padding_mask_semantics (zerosT [1, 2, 3]) 1 2 3 rfl actOne 768 8 1024 2 zeroBlockW
      false keepAllNoise (zerosT [1, 512, 768]) 0 1).1, ?_⟩
  rw [(padding_mask_semantics (zerosT [1, 2, 3]) 1 2 3 rfl actOne 768 8 1024 2 zeroBlockW
      false keepAllNoise (zerosT [1, 512, 768]) 0 1).2.1]
  rfl

/-! ## A concrete nondeterminism scenario for the attention dropout

An `AudioRegressor(768, 1, 1536, 1)` instance with hand-picked weights,
run in eval mode on an all-ones input, with two different keep-masks for
the dropout inside `Self_Attention`. -/

/-- The all-ones tensor of a given shape. -/
def onesT (s : List ℕ) : Tensor := ⟨s, fun _ => 1⟩

/-- The identity weight matrix. -/
def idW : ℕ → ℕ → ℚ := fun i j => if i = j then 1 else 0

/-- `-9` times the identity weight matrix. -/
def negNineW : ℕ → ℕ → ℚ := fun i j => if i = j then -9 else 0

/-- Extractor weights: each convolution has a single tap equal to `1`
(on output channel 0, input channel 0), so the extractor acts as a
sub-sampling copy of channel 0. -/
def c9ExtW : AudioExtractorW :=
  ⟨fun o c u v => if o = 0 ∧ c = 0 ∧ u = 0 ∧ v = 1 then 1 else 0,
   fun o c u v => if o = 0 ∧ c = 0 ∧ u = 0 ∧ v = 3 then 1 else 0,
   fun o c u v => if o = 0 ∧ c = 0 ∧ u = 0 ∧ v = 1 then 1 else 0,
   fun o c u v => if o = 0 ∧ c = 0 ∧ u = 0 ∧ v = 3 then 1 else 0⟩

/-- MHA weights: zero queries and keys (uniform attention), identity
values, `-9` times identity on the output projection. -/
def c9MHAW : MHAW := ⟨fun _ _ => 0, fun _ _ => 0, idW, negNineW⟩

/-- Encoder-layer weights: the MHA above, LayerNorm with `γ = 1, β = 0`,
a zero FFN (which is then the identity thanks to its residual). -/
def c9LayerW : AELayer1W := ⟨c9MHAW, fun _ => 1, fun _ => 0, fun _ => 1, fun _ => 0, zeroFFNW⟩

/-- The encoder-block weights (every layer as above; only layer 0 is used). -/
def c9BlockW : AEBlock1W := ⟨fun _ => c9LayerW⟩

/-- The full regressor weights for the scenario. -/
def c9W : AudioRegressorW := ⟨c9ExtW, c9BlockW, zeroGRUW, fun _ _ => 0, fun _ => 0⟩

/-- Noise that drops every entry at the `Self_Attention` dropout (and
keeps everything elsewhere). -/
def dropAttnNoise : Noise :=
  ⟨fun _ _ => false, fun _ _ => true, fun _ _ => true, fun _ _ => true, fun _ => true⟩

/-- The all-ones audio input of the model's expected shape. -/
def c9audio : Tensor := onesT [1, 2, 512, 128]

/-- The extractor output for the scenario. -/
def c9x : Tensor := AudioExtractor.forward c9ExtW c9audio

/-- The per-frame feature vector the extractor produces at every time
step: `1` on the first 32 features, `0` elsewhere. -/
def c9f : ℕ → ℚ := fun d => if d < 32 then 1 else 0

theorem c9conv1_out (o t j : ℕ) (ht : t < 512) (hj : j < 64) :
    ((Conv2dM.mk 2 8 1 4 0 1 1 2 c9ExtW.conv1).forward c9audio).data [0, o, t, j] =
      if o = 0 then 1 else 0 := by
  simp only [Conv2dM.forward, c9ExtW, c9audio, onesT]
  rw [show (2:ℕ) = 1 + 1 from rfl, show (4:ℕ) = 3 + 1 from rfl]
  simp only [Finset.sum_range_succ, Finset.sum_range_zero, Finset.sum_range_one]
  by_cases ho : o = 0
  · subst ho
    norm_num [padGet]
    exact ⟨ht, by omega⟩
  · norm_num [ho]

/-- First extractor stage (conv1 + ReLU). -/
def c9s1 : Tensor := reluT ((Conv2dM.mk 2 8 1 4 0 1 1 2 c9ExtW.conv1).forward c9audio)

/-- Second extractor stage (conv2 + ReLU). -/
def c9s2 : Tensor := reluT ((Conv2dM.mk 8 8 1 7 0 3 1 1 c9ExtW.conv2).forward c9s1)

/-- Third extractor stage (conv3 + ReLU). -/
def c9s3 : Tensor := reluT ((Conv2dM.mk 8 24 1 4 0 1 1 2 c9ExtW.conv3).forward c9s2)

/-- Fourth extractor stage (conv4, no ReLU). -/
def c9s4 : Tensor := (Conv2dM.mk 24 24 1 7 0 3 1 1 c9ExtW.conv4).forward c9s3

theorem c9s1_data (o t j : ℕ) (ht : t < 512) (hj : j < 64) :
    c9s1.data [0, o, t, j] = if o = 0 then 1 else 0 := by
  simp only [c9s1, reluT]
  rw [c9conv1_out o t j ht hj]
  split <;> norm_num

theorem c9s2_data (o t j : ℕ) (ht : t < 512) (hj : j < 64) :
    c9s2.data [0, o, t, j] = if o = 0 then 1 else 0 := by
  have hconv : ((Conv2dM.mk 8 8 1 7 0 3 1 1 c9ExtW.conv2).forward c9s1).data [0, o, t, j] =
      if o = 0 then 1 else 0 := by
    simp only [Conv2dM.forward, c9ExtW]
    by_cases ho : o = 0
    · subst ho
      simp only [Finset.sum_range_succ, Finset.sum_range_zero]
      norm_num [padGet, show c9s1.shape = [1, 8, 512, 64] from rfl]
      rw [if_pos ⟨ht, by omega⟩]
      rw [c9s1_data 0 t j ht hj]
      norm_num
    · simp only [Finset.sum_range_succ, Finset.sum_range_zero]
      norm_num [ho]
  simp only [c9s2, reluT]
  rw [hconv]
  split <;> norm_num

theorem c9s3_data (o t j : ℕ) (ht : t < 512) (hj : j < 32) :
    c9s3.data [0, o, t, j] = if o = 0 then 1 else 0 := by
  have hconv : ((Conv2dM.mk 8 24 1 4 0 1 1 2 c9ExtW.conv3).forward c9s2).data [0, o, t, j] =
      if o = 0 then 1 else 0 := by
    simp only [Conv2dM.forward, c9ExtW]
    by_cases ho : o = 0
    · subst ho
      simp only [Finset.sum_range_succ, Finset.sum_range_zero]
      norm_num [padGet, show c9s2.shape = [1, 8, 512, 64] from rfl]
      rw [if_pos ⟨ht, by omega⟩]
      rw [show ((j : ℤ) * 2).toNat = j * 2 from by omega]
      rw [c9s2_data 0 t (j * 2) ht (by omega)]
      norm_num
    · simp only [Finset.sum_range_succ, Finset.sum_range_zero]
      norm_num [ho]
  simp only [c9s3, reluT]
  rw [hconv]
  split <;> norm_num

theorem c9s4_data (o t j : ℕ) (ht : t < 512) (hj : j < 32) :
    c9s4.data [0, o, t, j] = if o = 0 then 1 else 0 := by
  simp only [c9s4, Conv2dM.forward, c9ExtW]
  by_cases ho : o = 0
  · subst ho
    simp only [Finset.sum_range_succ, Finset.sum_range_zero]
    norm_num [padGet, show c9s3.shape = [1, 24, 512, 32] from rfl]
    rw [if_pos ⟨ht, by omega⟩]
    rw [c9s3_data 0 t j ht hj]
    norm_num
  · simp only [Finset.sum_range_succ, Finset.sum_range_zero]
    norm_num [ho]

theorem c9x_data (t d : ℕ) (ht : t < 512) (hd : d < 768) :
    c9x.data [0, t, d] = c9f d := by
  have hx : c9x.data [0, t, d] = c9s4.data (swapAt2 2 1 (delinIdx [1, 512, 24, 32]
      (linIdx [1, 512, 768] [0, t, d]))) := rfl
  rw [hx]
  rw [show linIdx [1, 512, 768] [0, t, d] = t * 768 + d by simp [linIdx]]
  rw [show delinIdx [1, 512, 24, 32] (t * 768 + d) = [0, t, d / 32, d % 32] by
    norm_num [delinIdx]
    omega]
  rw [show swapAt2 2 1 [0, t, d / 32, d % 32] = [0, d / 32, t, d % 32] from by
    simp [swapAt2, List.set, List.getD]]
  rw [c9s4_data (d / 32) t (d % 32) ht (by omega)]
  simp only [c9f]
  by_cases h32 : d < 32
  · rw [if_pos (by omega), if_pos h32]
  · rw [if_neg (by omega), if_neg h32]

set_option maxRecDepth 8000 in
theorem c9mask_data (l : ℕ) (hl : l < 512) :
    (padding_mask_audio c9x).data [0, 0, l] = false := by
  have h : (padding_mask_audio c9x).data [0, 0, l] =
      (List.range 768).all (fun k => decide (c9x.data [0, l, k] ≠ 0)) := rfl
  rw [h]
  cases hAll : (List.range 768).all (fun k => decide (c9x.data [0, l, k] ≠ 0)) with
  | false => rfl
  | true =>
    exfalso
    have h32 := (List.all_eq_true.mp hAll) 32 (by simp)
    rw [c9x_data l 32 hl (by norm_num)] at h32
    simp [c9f] at h32

/-- The per-head query tensor of the scenario (zero weights). -/
def c9Q : Tensor := MHA.queries 768 1 c9MHAW.Q_fc c9x

/-- The per-head key tensor of the scenario (zero weights). -/
def c9K : Tensor := MHA.queries 768 1 c9MHAW.K_fc c9x

/-- The per-head value tensor of the scenario (identity weights). -/
def c9V : Tensor := MHA.queries 768 1 c9MHAW.V_fc c9x

theorem c9Q_data (idx : List ℕ) : c9Q.data idx = 0 := by
  simp [c9Q, MHA.queries, transposeT, reshapeT, LinearM.forward, c9MHAW]

theorem c9K_data (idx : List ℕ) : c9K.data idx = 0 := by
  simp [c9K, MHA.queries, transposeT, reshapeT, LinearM.forward, c9MHAW]

theorem c9V_data (k e : ℕ) (hk : k < 512) (he : e < 768) :
    c9V.data [0, 0, k, e] = c9f e := by
  have h : c9V.data [0, 0, k, e] =
      (LinearM.forward ⟨768, 768, c9MHAW.V_fc, none⟩ c9x).data
        (delinIdx [1, 512, 768] (linIdx [1, 512, 1, 768] [0, k, 0, e])) := rfl
  rw [h]
  rw [show linIdx [1, 512, 1, 768] [0, k, 0, e] = k * 768 + e by simp [linIdx]]
  rw [show delinIdx [1, 512, 768] (k * 768 + e) = [0, k, e] by
    norm_num [delinIdx]
    omega]
  simp only [LinearM.forward, c9MHAW, idW]
  rw [show lastD [0, k, e] = e from rfl]
  have hsum : ∀ i ∈ Finset.range 768,
      c9x.data (List.dropLast [0, k, e] ++ [i]) * (if e = i then (1 : ℚ) else 0) =
      if e = i then c9x.data [0, k, i] else 0 := by
    intro i _
    split <;> simp
  rw [Finset.sum_congr rfl hsum, Finset.sum_ite_eq (Finset.range 768) e
    (fun i => c9x.data [0, k, i])]
  rw [if_pos (Finset.mem_range.mpr he)]
  rw [c9x_data k e hk he]
  norm_num

/-- The scenario's self-attention call (as made by `MHA.forward`). -/
def c9SA (A : Act) (keep : List ℕ → Bool) : Tensor × Tensor :=
  Self_Attention A keep c9Q c9K c9V (some (padding_mask_audio c9x))

/-- The scenario's masked pre-softmax score tensor. -/
def c9S (A : Act) : Tensor :=
  maskedFillT (divScalarT (matmulT c9Q (transposeT (-2) (-1) c9K))
    (A.sqrt (lastDim c9Q : ℚ))) (notB (unsqueezeB 1 (padding_mask_audio c9x)))
    (-(1000000000 : ℚ))

set_option maxRecDepth 8000 in
theorem c9S_data (A : Act) (q j : ℕ) (hj : j < 512) :
    (c9S A).data [0, 0, q, j] = -(1000000000 : ℚ) := by
  simp only [c9S, maskedFillT]
  have hb : broadcastGetB (notB (unsqueezeB 1 (padding_mask_audio c9x))) [0, 0, q, j] =
      !(padding_mask_audio c9x).data [0, 0, j] := rfl
  rw [hb, c9mask_data j hj]
  simp

theorem c9SA_snd (A : Act) (keep : List ℕ → Bool) :
    (c9SA A keep).2 = dropoutT (1 / 10) true keep (softmaxT A (c9S A)) := rfl

theorem c9softmax_data (A : Act) (hexp : ∀ r : ℚ, 0 < A.exp r) (q k : ℕ)
    (hk : k < 512) :
    (softmaxT A (c9S A)).data [0, 0, q, k] = 1 / 512 := by
  have hshape : lastDim (c9S A) = 512 := rfl
  simp only [softmaxT, hshape]
  rw [c9S_data A q k hk]
  show A.exp (-1000000000) / ∑ x in Finset.range 512, A.exp ((c9S A).data [0, 0, q, x]) =
    1 / 512
  rw [Finset.sum_congr rfl
    (fun j hj => congrArg A.exp (c9S_data A q j (Finset.mem_range.mp hj)))]
  rw [Finset.sum_const, Finset.card_range, nsmul_eq_mul]
  have hne : A.exp (-(1000000000 : ℚ)) ≠ 0 := ne_of_gt (hexp _)
  field_simp
  ring

set_option maxRecDepth 20000 in
theorem c9att_keep (A : Act) (hexp : ∀ r : ℚ, 0 < A.exp r) (q e : ℕ)
    (he : e < 768) :
    (c9SA A (fun _ => true)).1.data [0, 0, q, e] = 10 / 9 * c9f e := by
  have hscore : ∀ k, k < 512 → (c9SA A (fun _ => true)).2.data [0, 0, q, k] =
      1 / 512 / (1 - 1 / 10) := by
    intro k hk
    rw [c9SA_snd]
    show (softmaxT A (c9S A)).data [0, 0, q, k] / (1 - 1 / 10) = 1 / 512 / (1 - 1 / 10)
    rw [c9softmax_data A hexp q k hk]
  show ∑ k in Finset.range 512,
      (c9SA A (fun _ => true)).2.data [0, 0, q, k] * c9V.data [0, 0, k, e] = 10 / 9 * c9f e
  rw [Finset.sum_congr rfl (fun k hk => by
    rw [hscore k (Finset.mem_range.mp hk), c9V_data k e (Finset.mem_range.mp hk) he])]
  rw [Finset.sum_const, Finset.card_range, nsmul_eq_mul]
  ring

set_option maxRecDepth 20000 in
theorem c9att_drop (A : Act) (q e : ℕ) :
    (c9SA A (fun _ => false)).1.data [0, 0, q, e] = 0 := by
  show ∑ k in Finset.range 512,
      (c9SA A (fun _ => false)).2.data [0, 0, q, k] * c9V.data [0, 0, k, e] = 0
  have h0 : ∀ k : ℕ, (c9SA A (fun _ => false)).2.data [0, 0, q, k] = 0 := fun _ => rfl
  simp [h0]

/-- The scenario's MHA output. -/
def c9mhaOut (A : Act) (keep : List ℕ → Bool) : Tensor :=
  MHA.forward A 768 1 c9MHAW keep c9x c9x c9x (some (padding_mask_audio c9x))

theorem reshapeT_data (x : Tensor) (spec : List ℤ) (idx : List ℕ) :
    (reshapeT x spec).data idx = x.data (delinIdx x.shape (linIdx
      (spec.map (fun d => if d = -1 then
        x.shape.prod / (spec.foldl (fun a d => if d = -1 then a else a * d.toNat) 1)
        else d.toNat)) idx)) := rfl

theorem transposeT_data (d1 d2 : ℤ) (x : Tensor) (idx : List ℕ) :
    (transposeT d1 d2 x).data idx =
      x.data (swapAt2 (resolveDim x.shape.length d1) (resolveDim x.shape.length d2) idx) :=
  rfl

set_option maxRecDepth 4000 in
theorem c9attv_data (A : Act) (keep : List ℕ → Bool) (q e : ℕ) (hq : q < 512)
    (he : e < 768) :
    (reshapeT (transposeT 1 2 (c9SA A keep).1) [(1 : ℤ), -1, (768 : ℤ)]).data [0, q, e] =
      (c9SA A keep).1.data [0, 0, q, e] := by
  rw [reshapeT_data, transposeT_data]
  rw [show (transposeT 1 2 (c9SA A keep).1).shape = [1, 512, 1, 768] from rfl]
  rw [show (c9SA A keep).1.shape = [1, 1, 512, 768] from rfl]
  norm_num [natCast_ne_negOne]
  rw [show (393216 / Int.toNat 768 : ℕ) = 512 from rfl,
    show Int.toNat 768 = 768 from rfl]
  rw [show linIdx [1, 512, 768] [0, q, e] = q * 768 + e by simp [linIdx]]
  rw [show delinIdx [1, 512, 1, 768] (q * 768 + e) = [0, q, 0, e] by
    norm_num [delinIdx]
    omega]
  rw [show swapAt2 (resolveDim 4 1) (resolveDim 4 2) [0, q, 0, e] = [0, 0, q, e] from by
    simp [swapAt2, resolveDim, List.set, List.getD]]

set_option maxRecDepth 4000 in
theorem c9mhaOut_unfold (A : Act) (keep : List ℕ → Bool) :
    c9mhaOut A keep = LinearM.forward ⟨768, 768, c9MHAW.Out_fc, none⟩
      (reshapeT (transposeT 1 2 (c9SA A keep).1) [(1 : ℤ), -1, (768 : ℤ)]) := rfl

theorem linearM_data (m : LinearM) (x : Tensor) (idx : List ℕ) :
    (LinearM.forward m x).data idx =
      (∑ i in Finset.range m.inF, x.data (idx.dropLast ++ [i]) * m.w (lastD idx) i) +
        (match m.b with | some f => f (lastD idx) | none => 0) := rfl

theorem c9mhaOut_keep (A : Act) (hexp : ∀ r : ℚ, 0 < A.exp r) (q e : ℕ)
    (hq : q < 512) (he : e < 768) :
    (c9mhaOut A (fun _ => true)).data [0, q, e] = -10 * c9f e := by
  rw [c9mhaOut_unfold, linearM_data]
  rw [Finset.sum_congr rfl (fun i hi => by
    rw [show List.dropLast [0, q, e] ++ [i] = [0, q, i] from rfl,
      c9attv_data A _ q i hq (Finset.mem_range.mp hi),
      c9att_keep A hexp q i (Finset.mem_range.mp hi)])]
  have hs : ∀ i ∈ Finset.range 768,
      10 / 9 * c9f i * (⟨768, 768, c9MHAW.Out_fc, none⟩ : LinearM).w (lastD [0, q, e]) i =
      if e = i then 10 / 9 * c9f i * (-9) else 0 := by
    intro i _
    show 10 / 9 * c9f i * negNineW e i = _
    simp only [negNineW]
    split <;> simp
  rw [Finset.sum_congr rfl hs,
    Finset.sum_ite_eq (Finset.range 768) e (fun i => 10 / 9 * c9f i * (-9)),
    if_pos (Finset.mem_range.mpr he)]
  show 10 / 9 * c9f e * (-9) + 0 = -10 * c9f e
  ring

theorem c9mhaOut_drop (A : Act) (q e : ℕ) (hq : q < 512) :
    (c9mhaOut A (fun _ => false)).data [0, q, e] = 0 := by
  rw [c9mhaOut_unfold, linearM_data]
  rw [Finset.sum_congr rfl (fun i hi => by
    rw [show List.dropLast [0, q, e] ++ [i] = [0, q, i] from rfl,
      c9attv_data A _ q i hq (Finset.mem_range.mp hi),
      c9att_drop A q i])]
  simp

theorem layerNormT_data (A : Act) (g b : ℕ → ℚ) (x : Tensor) (idx : List ℕ) :
    (layerNormT A g b x).data idx =
      g (lastD idx) * ((x.data idx -
        (∑ i in Finset.range (lastDim x), x.data (idx.dropLast ++ [i])) / (lastDim x : ℚ)) /
        A.sqrt ((∑ i in Finset.range (lastDim x), (x.data (idx.dropLast ++ [i]) -
          (∑ j in Finset.range (lastDim x), x.data (idx.dropLast ++ [j])) / (lastDim x : ℚ)) ^ 2) /
          (lastDim x : ℚ) + 1 / 100000)) + b (lastD idx) := rfl

theorem layerNorm3_row (A : Act) (g b : ℕ → ℚ) (x : Tensor) (f : ℕ → ℚ)
    (hsh : lastDim x = 768)
    (hrow : ∀ i, i < 768 → x.data [0, 0, i] = f i) (e : ℕ) (he : e < 768) :
    (layerNormT A g b x).data [0, 0, e] =
      g e * ((f e - (∑ i in Finset.range 768, f i) / 768) /
        A.sqrt ((∑ i in Finset.range 768, (f i - (∑ j in Finset.range 768, f j) / 768) ^ 2) /
          768 + 1 / 100000)) + b e := by
  rw [layerNormT_data, hsh]
  rw [show lastD [0, 0, e] = e from rfl]
  have hmean : ∑ i in Finset.range 768, x.data (List.dropLast [0, 0, e] ++ [i]) =
      ∑ i in Finset.range 768, f i :=
    Finset.sum_congr rfl (fun i hi => hrow i (Finset.mem_range.mp hi))
  rw [hmean]
  have hvar : ∑ i in Finset.range 768, (x.data (List.dropLast [0, 0, e] ++ [i]) -
      (∑ j in Finset.range 768, f j) / ((768 : ℕ) : ℚ)) ^ 2 =
      ∑ i in Finset.range 768, (f i - (∑ j in Finset.range 768, f j) / 768) ^ 2 := by
    apply Finset.sum_congr rfl
    intro i hi
    have hx : x.data ([0, 0, e].dropLast ++ [i]) = f i := hrow i (Finset.mem_range.mp hi)
    rw [hx]
    norm_num
  rw [hvar, hrow e he]
  norm_num

theorem sum_c9f : ∑ i in Finset.range 768, c9f i = 32 := by
  have h : ∀ i ∈ Finset.range 768, c9f i = if i < 32 then (1 : ℚ) else 0 := fun _ _ => rfl
  rw [Finset.sum_congr rfl h, Finset.sum_ite, Finset.sum_const, Finset.sum_const]
  rw [show Finset.filter (fun i => i < 32) (Finset.range 768) = Finset.range 32 from by
    ext a
    simp only [Finset.mem_filter, Finset.mem_range]
    omega]
  simp

theorem sum_sub_mean (f : ℕ → ℚ) (n : ℕ) (hn : (n : ℚ) ≠ 0) :
    ∑ i in Finset.range n, (f i - (∑ j in Finset.range n, f j) / n) = 0 := by
  rw [Finset.sum_sub_distrib, Finset.sum_const, Finset.card_range, nsmul_eq_mul]
  field_simp

theorem var_part_nonneg (h : ℕ → ℚ) (n : ℕ) :
    0 ≤ (∑ i in Finset.range n, h i ^ 2) / n :=
  div_nonneg (Finset.sum_nonneg (fun _ _ => sq_nonneg _)) (Nat.cast_nonneg n)

theorem sum_sub_mean768 (f : ℕ → ℚ) :
    ∑ i in Finset.range 768, (f i - (∑ j in Finset.range 768, f j) / 768) = 0 := by
  rw [Finset.sum_sub_distrib, Finset.sum_const, Finset.card_range, nsmul_eq_mul]
  push_cast
  ring

set_option maxRecDepth 4000 in
theorem c9out_keep_neg (A : Act) (hexp : ∀ r : ℚ, 0 < A.exp r)
    (hsqrt : ∀ r : ℚ, 0 < r → 0 < A.sqrt r) (k1 k2 kf : List ℕ → Bool) :
    (AELayer1.forward A 768 1 1536 c9LayerW false (fun _ => true) k1 k2 kf c9x
      (some (padding_mask_audio c9x))).data [0, 0, 0] < 0 := by
  have hunfold : AELayer1.forward A 768 1 1536 c9LayerW false (fun _ => true) k1 k2 kf c9x
      (some (padding_mask_audio c9x)) =
    layerNormT A c9LayerW.ln2g c9LayerW.ln2b (addT
      (layerNormT A c9LayerW.ln1g c9LayerW.ln1b
        (addT c9x (dropoutT (1 / 10) false k1 (c9mhaOut A (fun _ => true)))))
      (dropoutT (1 / 10) false k2 (FFN.forward 768 1536 (1 / 10) c9LayerW.ffn false kf
        (layerNormT A c9LayerW.ln1g c9LayerW.ln1b
          (addT c9x (dropoutT (1 / 10) false k1 (c9mhaOut A (fun _ => true)))))))) := rfl
  rw [hunfold]
  set y : Tensor := addT c9x (dropoutT (1 / 10) false k1 (c9mhaOut A (fun _ => true)))
    with hy
  set z : Tensor := layerNormT A c9LayerW.ln1g c9LayerW.ln1b y with hzdef
  have hyrow : ∀ i, i < 768 → y.data [0, 0, i] = -9 * c9f i := by
    intro i hi
    rw [hy]
    show c9x.data [0, 0, i] + (c9mhaOut A (fun _ => true)).data [0, 0, i] = -9 * c9f i
    rw [c9x_data 0 i (by norm_num) hi, c9mhaOut_keep A hexp 0 i (by norm_num) hi]
    ring
  have hm1 : (∑ i in Finset.range 768, (-9 : ℚ) * c9f i) / 768 = -3 / 8 := by
    rw [← Finset.mul_sum, sum_c9f]
    norm_num
  have hS1pos : 0 < A.sqrt ((∑ j in Finset.range 768,
      (-9 * c9f j - (∑ i in Finset.range 768, (-9 : ℚ) * c9f i) / 768) ^ 2) / 768 +
      1 / 100000) := by
    apply hsqrt
    have hv := var_part_nonneg
      (fun j => -9 * c9f j - (∑ i in Finset.range 768, (-9 : ℚ) * c9f i) / 768) 768
    push_cast at hv
    linarith
  have hzrow : ∀ i, i < 768 → z.data [0, 0, i] =
      (-9 * c9f i - (∑ j in Finset.range 768, (-9 : ℚ) * c9f j) / 768) /
        A.sqrt ((∑ j in Finset.range 768,
          (-9 * c9f j - (∑ i in Finset.range 768, (-9 : ℚ) * c9f i) / 768) ^ 2) / 768 +
          1 / 100000) := by
    intro i hi
    rw [hzdef]
    rw [layerNorm3_row A c9LayerW.ln1g c9LayerW.ln1b y (fun i => -9 * c9f i) rfl hyrow i hi]
    show (1 : ℚ) * _ + 0 = _
    rw [one_mul, add_zero]
  have hzsum : ∑ i in Finset.range 768, z.data [0, 0, i] = 0 := by
    rw [Finset.sum_congr rfl (fun i hi => hzrow i (Finset.mem_range.mp hi))]
    rw [← Finset.sum_div, sum_sub_mean768 (fun i => -9 * c9f i)]
    simp
  have hz0neg : z.data [0, 0, 0] < 0 := by
    rw [hzrow 0 (by norm_num), hm1]
    apply div_neg_of_neg_of_pos
    · norm_num [c9f]
    · have hS1pos2 := hS1pos
      rw [hm1] at hS1pos2
      exact hS1pos2
  have hffn : ∀ idx : List ℕ,
      (FFN.forward 768 1536 (1 / 10) c9LayerW.ffn false kf z).data idx = z.data idx := by
    intro idx
    show (LinearM.forward ⟨1536, 768, c9LayerW.ffn.fc2w, some c9LayerW.ffn.fc2b⟩
      (dropoutT (1 / 10) false kf (reluT (LinearM.forward
        ⟨768, 1536, c9LayerW.ffn.fc1w, some c9LayerW.ffn.fc1b⟩ z)))).data idx +
      z.data idx = z.data idx
    rw [linearM_data]
    simp [c9LayerW, zeroFFNW]
  have hw2row : ∀ i, i < 768 → (addT z (dropoutT (1 / 10) false k2
      (FFN.forward 768 1536 (1 / 10) c9LayerW.ffn false kf z))).data [0, 0, i] =
      2 * z.data [0, 0, i] := by
    intro i hi
    show z.data [0, 0, i] +
      (FFN.forward 768 1536 (1 / 10) c9LayerW.ffn false kf z).data [0, 0, i] =
      2 * z.data [0, 0, i]
    rw [hffn]
    ring
  rw [layerNorm3_row A c9LayerW.ln2g c9LayerW.ln2b
    (addT z (dropoutT (1 / 10) false k2
      (FFN.forward 768 1536 (1 / 10) c9LayerW.ffn false kf z)))
    (fun i => 2 * z.data [0, 0, i]) (by rfl) hw2row 0 (by norm_num)]
  show (1 : ℚ) * _ + 0 < 0
  rw [one_mul, add_zero]
  have hmean2 : (∑ i in Finset.range 768, 2 * z.data [0, 0, i]) / 768 = 0 := by
    rw [← Finset.mul_sum, hzsum]
    norm_num
  rw [hmean2]
  apply div_neg_of_neg_of_pos
  · simp only [sub_zero]
    linarith
  · apply hsqrt
    have hv := var_part_nonneg (fun i => 2 * z.data [0, 0, i] - 0) 768
    push_cast at hv
    linarith

set_option maxRecDepth 4000 in
theorem c9out_drop_pos (A : Act) (hsqrt : ∀ r : ℚ, 0 < r → 0 < A.sqrt r)
    (k1 k2 kf : List ℕ → Bool) :
    0 < (AELayer1.forward A 768 1 1536 c9LayerW false (fun _ => false) k1 k2 kf c9x
      (some (padding_mask_audio c9x))).data [0, 0, 0] := by
  have hunfold : AELayer1.forward A 768 1 1536 c9LayerW false (fun _ => false) k1 k2 kf c9x
      (some (padding_mask_audio c9x)) =
    layerNormT A c9LayerW.ln2g c9LayerW.ln2b (addT
      (layerNormT A c9LayerW.ln1g c9LayerW.ln1b
        (addT c9x (dropoutT (1 / 10) false k1 (c9mhaOut A (fun _ => false)))))
      (dropoutT (1 / 10) false k2 (FFN.forward 768 1536 (1 / 10) c9LayerW.ffn false kf
        (layerNormT A c9LayerW.ln1g c9LayerW.ln1b
          (addT c9x (dropoutT (1 / 10) false k1 (c9mhaOut A (fun _ => false)))))))) := rfl
  rw [hunfold]
  set y : Tensor := addT c9x (dropoutT (1 / 10) false k1 (c9mhaOut A (fun _ => false)))
    with hy
  set z : Tensor := layerNormT A c9LayerW.ln1g c9LayerW.ln1b y with hzdef
  have hyrow : ∀ i, i < 768 → y.data [0, 0, i] = c9f i := by
    intro i hi
    rw [hy]
    show c9x.data [0, 0, i] + (c9mhaOut A (fun _ => false)).data [0, 0, i] = c9f i
    rw [c9x_data 0 i (by norm_num) hi, c9mhaOut_drop A 0 i (by norm_num)]
    ring
  have hm1 : (∑ i in Finset.range 768, c9f i) / 768 = 1 / 24 := by
    rw [sum_c9f]
    norm_num
  have hS1pos : 0 < A.sqrt ((∑ j in Finset.range 768,
      (c9f j - (∑ i in Finset.range 768, c9f i) / 768) ^ 2) / 768 + 1 / 100000) := by
    apply hsqrt
    have hv := var_part_nonneg
      (fun j => c9f j - (∑ i in Finset.range 768, c9f i) / 768) 768
    push_cast at hv
    linarith
  have hzrow : ∀ i, i < 768 → z.data [0, 0, i] =
      (c9f i - (∑ j in Finset.range 768, c9f j) / 768) /
        A.sqrt ((∑ j in Finset.range 768,
          (c9f j - (∑ i in Finset.range 768, c9f i) / 768) ^ 2) / 768 + 1 / 100000) := by
    intro i hi
    rw [hzdef]
    rw [layerNorm3_row A c9LayerW.ln1g c9LayerW.ln1b y (fun i => c9f i) rfl hyrow i hi]
    show (1 : ℚ) * _ + 0 = _
    rw [one_mul, add_zero]
  have hzsum : ∑ i in Finset.range 768, z.data [0, 0, i] = 0 := by
    rw [Finset.sum_congr rfl (fun i hi => hzrow i (Finset.mem_range.mp hi))]
    rw [← Finset.sum_div, sum_sub_mean768 (fun i => c9f i)]
    simp
  have hz0pos : 0 < z.data [0, 0, 0] := by
    rw [hzrow 0 (by norm_num), hm1]
    apply div_pos
    · norm_num [c9f]
    · have hS1pos2 := hS1pos
      rw [hm1] at hS1pos2
      exact hS1pos2
  have hffn : ∀ idx : List ℕ,
      (FFN.forward 768 1536 (1 / 10) c9LayerW.ffn false kf z).data idx = z.data idx := by
    intro idx
    show (LinearM.forward ⟨1536, 768, c9LayerW.ffn.fc2w, some c9LayerW.ffn.fc2b⟩
      (dropoutT (1 / 10) false kf (reluT (LinearM.forward
        ⟨768, 1536, c9LayerW.ffn.fc1w, some c9LayerW.ffn.fc1b⟩ z)))).data idx +
      z.data idx = z.data idx
    rw [linearM_data]
    simp [c9LayerW, zeroFFNW]
  have hw2row : ∀ i, i < 768 → (addT z (dropoutT (1 / 10) false k2
      (FFN.forward 768 1536 (1 / 10) c9LayerW.ffn false kf z))).data [0, 0, i] =
      2 * z.data [0, 0, i] := by
    intro i hi
    show z.data [0, 0, i] +
      (FFN.forward 768 1536 (1 / 10) c9LayerW.ffn false kf z).data [0, 0, i] =
      2 * z.data [0, 0, i]
    rw [hffn]
    ring
  rw [layerNorm3_row A c9LayerW.ln2g c9LayerW.ln2b
    (addT z (dropoutT (1 / 10) false k2
      (FFN.forward 768 1536 (1 / 10) c9LayerW.ffn false kf z)))
    (fun i => 2 * z.data [0, 0, i]) (by rfl) hw2row 0 (by norm_num)]
  show (0 : ℚ) < 1 * _ + 0
  rw [one_mul, add_zero]
  have hmean2 : (∑ i in Finset.range 768, 2 * z.data [0, 0, i]) / 768 = 0 := by
    rw [← Finset.mul_sum, hzsum]
    norm_num
  rw [hmean2]
  apply div_pos
  · simp only [sub_zero]
    linarith
  · apply hsqrt
    have hv := var_part_nonneg (fun i => 2 * z.data [0, 0, i] - 0) 768
    push_cast at hv
    linarith

set_option maxRecDepth 8000 in
set_option maxHeartbeats 2000000 in
/-- C9: with every registered module in eval mode (`training = false`),
the forward pass still applies the dropout constructed inside
`Self_Attention` — its keep-mask is consumed regardless — so two runs on
the same input and the same weights can return different outputs: for any
valuation of the framework's `exp`/`sqrt` primitives with the expected
positivity, there are weights, an input, and two dropout noise draws on
which `AudioRegressor.forward` disagrees. -/
theorem self_attention_dropout_nondeterminism (A : Act)
    (hexp : ∀ r : ℚ, 0 < A.exp r) (hsqrt : ∀ r : ℚ, 0 < r → 0 < A.sqrt r) :
    ∃ (nh inner nl : ℕ) (w : AudioRegressorW) (nz1 nz2 : Noise) (audio : Tensor),
      AudioRegressor.forward A 768 nh inner nl w false nz1 audio ≠
        AudioRegressor.forward A 768 nh inner nl w false nz2 audio := by
  refine ⟨1, 1536, 1, c9W, keepAllNoise, dropAttnNoise, c9audio, ?_⟩
  intro hEq
  have h2 : (AudioRegressor.forward A 768 1 1536 1 c9W false keepAllNoise c9audio).2.data
      [0, 0, 0] = (AudioRegressor.forward A 768 1 1536 1 c9W false dropAttnNoise
      c9audio).2.data [0, 0, 0] := by rw [hEq]
  have hkeep : (AudioRegressor.forward A 768 1 1536 1 c9W false keepAllNoise c9audio).2 =
      AELayer1.forward A 768 1 1536 c9LayerW false (fun _ => true) (keepAllNoise.res1 0)
        (keepAllNoise.res2 0) (keepAllNoise.ffn 0) c9x (some (padding_mask_audio c9x)) := rfl
  have hdrop : (AudioRegressor.forward A 768 1 1536 1 c9W false dropAttnNoise c9audio).2 =
      AELayer1.forward A 768 1 1536 c9LayerW false (fun _ => false) (dropAttnNoise.res1 0)
        (dropAttnNoise.res2 0) (dropAttnNoise.ffn 0) c9x (some (padding_mask_audio c9x)) :=
    rfl
  rw [hkeep, hdrop] at h2
  have hneg := c9out_keep_neg A hexp hsqrt (keepAllNoise.res1 0) (keepAllNoise.res2 0)
    (keepAllNoise.ffn 0)
  have hpos := c9out_drop_pos A hsqrt (dropAttnNoise.res1 0) (dropAttnNoise.res2 0)
    (dropAttnNoise.ffn 0)
  rw [h2] at hneg
  linarith

theorem self_attention_dropout_nondeterminism_witness :
    (∀ r : ℚ, 0 < actOne.exp r) ∧ (∀ r : ℚ, 0 < r → 0 < actOne.sqrt r) ∧
    ∃ (nh inner nl : ℕ) (w : AudioRegressorW) (nz1 nz2 : Noise) (audio : Tensor),
      AudioRegressor.forward actOne 768 nh inner nl w false nz1 audio ≠
        AudioRegressor.forward actOne 768 nh inner nl w false nz2 audio :=
  ⟨fun r => by norm_num [actOne], fun r hr => by norm_num [actOne],
    self_attention_dropout_nondeterminism actOne (fun r => by norm_num [actOne])
      (fun r hr => by norm_num [actOne])⟩
